import Mathlib

/-!
# fastftdi: a verification development

Shallow embedding of `ramtracer/host/fastftdi.h` (the FT2232H synchronous FIFO
interface) together with a model of the streaming engine, the transfer pool
and the packet decoder that the header declares.

The header supplies the constants, the enumerations, the endpoint macros and
the layout of `FTDITransfer` / `FTDITransferPool`; these are embedded as they
are written.  The bodies of the functions the header declares are modelled
from the written specification; each such definition says so.
-/

namespace FastFTDI

/-! ## Constants and macros of `fastftdi.h` -/

/-- The macro `#define FTDI_PACKET_SIZE 512   // Specific to FT2232H`. -/
def FTDI_PACKET_SIZE : Nat := 512

/-- The macro `#define FTDI_LOG_PACKET_SIZE 9     // 512 == 1 << 9`. -/
def FTDI_LOG_PACKET_SIZE : Nat := 9

/-- The macro `#define FTDI_HEADER_SIZE 2`. -/
def FTDI_HEADER_SIZE : Nat := 2

/-- The macro `#define FTDI_EP_IN(i) (0x81 + (i-1)*2)`, on C `int`s. -/
def FTDI_EP_IN (i : Int) : Int := 0x81 + (i - 1) * 2

/-- The macro `#define FTDI_EP_OUT(i) (0x02 + (i-1)*2)`, on C `int`s. -/
def FTDI_EP_OUT (i : Int) : Int := 0x02 + (i - 1) * 2

/-- The enumeration `FTDIBitmode`. -/
inductive FTDIBitmode where
  | FTDI_BITMODE_RESET
  | FTDI_BITMODE_BITBANG
  | FTDI_BITMODE_MPSSE
  | FTDI_BITMODE_SYNC_BITBANG
  | FTDI_BITMODE_MCU
  | FTDI_BITMODE_OPTO
  | FTDI_BITMODE_CBUS
  | FTDI_BITMODE_SYNC_FIFO
  deriving DecidableEq, Repr

/-- The integer value the header gives each `FTDIBitmode` enumerator. -/
def FTDIBitmode.val : FTDIBitmode → Nat
  | .FTDI_BITMODE_RESET        => 0
  | .FTDI_BITMODE_BITBANG      => 1 <<< 0
  | .FTDI_BITMODE_MPSSE        => 1 <<< 1
  | .FTDI_BITMODE_SYNC_BITBANG => 1 <<< 2
  | .FTDI_BITMODE_MCU          => 1 <<< 3
  | .FTDI_BITMODE_OPTO         => 1 <<< 4
  | .FTDI_BITMODE_CBUS         => 1 <<< 5
  | .FTDI_BITMODE_SYNC_FIFO    => 1 <<< 6

/-- All enumerators of `FTDIBitmode`, in declaration order. -/
def FTDIBitmode.all : List FTDIBitmode :=
  [.FTDI_BITMODE_RESET, .FTDI_BITMODE_BITBANG, .FTDI_BITMODE_MPSSE,
   .FTDI_BITMODE_SYNC_BITBANG, .FTDI_BITMODE_MCU, .FTDI_BITMODE_OPTO,
   .FTDI_BITMODE_CBUS, .FTDI_BITMODE_SYNC_FIFO]

/-- The enumeration `FTDIInterface`. -/
inductive FTDIInterface where
  | FTDI_INTERFACE_A
  | FTDI_INTERFACE_B
  deriving DecidableEq, Repr

/-- The integer value the header gives each `FTDIInterface` enumerator. -/
def FTDIInterface.val : FTDIInterface → Int
  | .FTDI_INTERFACE_A => 1
  | .FTDI_INTERFACE_B => 2

/-- The enumeration `FTDICallbackType`. -/
inductive FTDICallbackType where
  | FTDI_CALLBACK_DATA
  | FTDI_CALLBACK_PERIODICAL
  | FTDI_CALLBACK_CLEANUP
  deriving DecidableEq, Repr

/-- The USB direction bit of an endpoint address (`LIBUSB_ENDPOINT_IN`). -/
def USB_DIR_IN : Nat := 0x80

/-- The endpoint number of an endpoint address: the address without its direction bit. -/
def endpointNumber (addr : Int) : Nat := addr.toNat &&& 0x7F

/-- The direction bit of an endpoint address. -/
def endpointDirection (addr : Int) : Nat := addr.toNat &&& USB_DIR_IN

/-! ## Data layout of `fastftdi.h` -/

/-- The part of `struct libusb_transfer` (from `libusb.h`) the model reads: the capacity in
bytes of the buffer attached to the transfer. -/
structure LibusbTransfer where
  length : Nat
  deriving DecidableEq, Repr

/-- The structure `FTDITransfer`.  Pointers into the pool's array are indices, `NULL` is
`none`; `userdata` holds the owner-assigned slot index. -/
structure FTDITransfer where
  transfer : LibusbTransfer
  next : Option Nat
  userdata : Nat
  deriving DecidableEq, Repr

/-- The structure `FTDITransferPool`: the array `transfer`, its size `transfercount` and the
head `free` of the free list. -/
structure FTDITransferPool where
  transfer : List FTDITransfer
  transfercount : Nat
  free : Option Nat
  deriving DecidableEq, Repr

/-- The terminal status of a streaming session (the error taxonomy of the engine). -/
inductive StreamStatus where
  | Ok
  | CallbackStop (code : Int)
  | IOError
  | FramingError
  | SubmitFailed
  | PoolEmpty
  | ResourceExhausted
  deriving DecidableEq, Repr

/-! ## The transfer pool -/

namespace FTDITransferPool

/-- The list reached from a head pointer through `FTDITransfer.next`.  The walk is fuelled:
`none` means the chain did not end within `fuel` links or left the array. -/
def walk (ts : List FTDITransfer) : Nat → Option Nat → Option (List Nat)
  | _, none => some []
  | 0, some _ => none
  | fuel + 1, some i =>
    match ts[i]? with
    | none => none
    | some t => (walk ts fuel t.next).map (fun l => i :: l)

/-- The free set of a pool: the list reached from `free` through `next`; a chain of
distinct transfers of the pool ends within `transfercount` links. -/
def freeList (pool : FTDITransferPool) : Option (List Nat) :=
  walk pool.transfer pool.transfercount pool.free

/-- Modelled from the spec: `release(buffer)` of the TransferPool (the pool code is not in
the header): returns a buffer to the free list, by linking it in front of the head. -/
def release (pool : FTDITransferPool) (i : Nat) : FTDITransferPool :=
  match pool.transfer[i]? with
  | none => pool
  | some t =>
    { pool with transfer := pool.transfer.set i { t with next := pool.free }, free := some i }

/-- Modelled from the spec: `acquireFree()` of the TransferPool (the pool code is not in the
header): removes and returns one buffer from the free list; fails with `PoolEmpty` if none
is available. -/
def acquireFree (pool : FTDITransferPool) : Except StreamStatus (Nat × FTDITransferPool) :=
  match pool.free with
  | none => .error .PoolEmpty
  | some i =>
    match pool.transfer[i]? with
    | none => .error .PoolEmpty
    | some t => .ok (i, { pool with free := t.next })

/-- Modelled from the spec: `allocate(depth, bufferSize)` of the TransferPool (the pool code
is not in the header): constructs `depth` buffers, each of `bufferSize` bytes, all
initially free. -/
def allocate (depth bufferSize : Nat) : FTDITransferPool :=
  (List.range depth).foldl release
    { transfer := (List.range depth).map
        (fun i => { transfer := { length := bufferSize }, next := none, userdata := i }),
      transfercount := depth,
      free := none }

/-- Modelled from the spec: `destroy()` of the TransferPool (the pool code is not in the
header): releases all underlying resources. -/
def destroy (_pool : FTDITransferPool) : FTDITransferPool :=
  { transfer := [], transfercount := 0, free := none }

end FTDITransferPool

/-- The pool invariant for a pool and the list of its transfers that are in flight: the
array has `transfercount` entries, the free list is well formed, and in-flight and free
transfers together are exactly the slots `0 .. transfercount - 1`, each once. -/
def PoolInv (pool : FTDITransferPool) (inflight : List Nat) : Prop :=
  pool.transfer.length = pool.transfercount ∧
  ∃ fl, pool.freeList = some fl ∧ (inflight ++ fl).Perm (List.range pool.transfercount)

/-! ## Packet decoding -/

/-- Modelled from the spec: the header-stripping loop of `FTDIDevice_ReadStream` (its body
is not in the header): for each of `k` packets of `FTDI_PACKET_SIZE` bytes, drop the
`FTDI_HEADER_SIZE` status bytes and keep the payload, in packet order.  Bytes are
`uint8_t` values held as naturals. -/
def stripHeaders : Nat → List Nat → List Nat
  | 0, _ => []
  | k + 1, buf =>
    (buf.take FTDI_PACKET_SIZE).drop FTDI_HEADER_SIZE ++
      stripHeaders k (buf.drop FTDI_PACKET_SIZE)

/-- Modelled from the spec: the decode step of `FTDIDevice_ReadStream` (its body is not in
the header): a transfer length that is not a multiple of the native packet size is a
`FramingError`; otherwise the payload is the buffer with every packet header stripped. -/
def decode (buf : List Nat) : Except StreamStatus (List Nat) :=
  if buf.length % FTDI_PACKET_SIZE ≠ 0 then .error .FramingError
  else .ok (stripHeaders (buf.length / FTDI_PACKET_SIZE) buf)

/-! ## The streaming engine -/

/-- The phases of a streaming session. -/
inductive Phase where
  | Init
  | SubmitInitial
  | Streaming
  | Draining
  | Cleanup
  | Done
  deriving DecidableEq, Repr

/-- The status of a completed transfer, as `enum libusb_transfer_status` reports it. -/
inductive TransferStatus where
  | completed
  | error
  | cancelled
  deriving DecidableEq, Repr

/-- What the transport delivers to the engine: the completion of the transfer in a slot,
with its status and the bytes received, or a tick of the periodic timer. -/
inductive TransportEvent where
  | completion (slot : Nat) (status : TransferStatus) (buffer : List Nat)
  | timer
  deriving DecidableEq, Repr

/-- The mock transport of a session: whether it accepts the initial submission of a slot,
and the events it then delivers, in order. -/
structure Transport where
  submitOk : Nat → Bool
  events : List TransportEvent

/-- An `FTDIStreamCallback`: callback type, buffer (`none` for `NULL`), length, the
cumulative byte count of the progress snapshot and the user data, which it may update;
the result is the `int` it returns. -/
abbrev FTDIStreamCallback (σ : Type) :=
  FTDICallbackType → Option (List Nat) → Nat → Nat → σ → Int × σ

/-- One observed invocation of the consumer callback: its arguments, the value it
returned, and the number of transfers in flight when it was called. -/
structure CallbackRecord where
  cbtype : FTDICallbackType
  buffer : Option (List Nat)
  length : Nat
  ret : Int
  outstanding : Nat
  deriving DecidableEq, Repr

/-- Modelled from the spec: the StreamSession state of `FTDIDevice_ReadStream` (its body is
not in the header): phase, pool, the slots in flight (the outstanding-transfer counter is
the length of this list; cancellation is pending exactly in phase `Draining`), the recorded
status, the accumulated decoded byte count, the cumulative byte count of the progress
tracker, the callback's user data and the log of callback invocations. -/
structure StreamSession (σ : Type) where
  phase : Phase
  pool : FTDITransferPool
  inflight : List Nat
  result : StreamStatus
  accumulated : Nat
  progressBytes : Nat
  userdata : σ
  trace : List CallbackRecord

/-- Modelled from the spec: `onBytes(n)` of the ProgressTracker, on the `uint64_t`
cumulative total `current.totalBytes` (its timestamps and rates are not modelled):
adds `n` to the cumulative total. -/
def onBytes (totalBytes n : Nat) : Nat := (totalBytes + n) % 2 ^ 64

namespace StreamSession

variable {σ : Type}

/-- Invoke the consumer callback and log the invocation. -/
def invoke (cb : FTDIStreamCallback σ) (ty : FTDICallbackType) (buf : Option (List Nat))
    (len : Nat) (s : StreamSession σ) : Int × StreamSession σ :=
  let r := cb ty buf len s.progressBytes s.userdata
  (r.1, { s with
    userdata := r.2,
    trace := s.trace ++ [{ cbtype := ty, buffer := buf, length := len, ret := r.1,
                           outstanding := s.inflight.length }] })

/-- A transfer that completed and is not resubmitted leaves the in-flight set and goes
back to the free list. -/
def retire (slot : Nat) (s : StreamSession σ) : StreamSession σ :=
  { s with pool := s.pool.release slot, inflight := s.inflight.erase slot }

/-- Modelled from the spec: phase Cleanup of `FTDIDevice_ReadStream`: invoke
`callback(CLEANUP, null, 0, finalSnapshot, context)`, release the pool, and be Done. -/
def cleanup (cb : FTDIStreamCallback σ) (s : StreamSession σ) : StreamSession σ :=
  let r := invoke cb .FTDI_CALLBACK_CLEANUP none 0 { s with phase := .Cleanup }
  { r.2 with pool := r.2.pool.destroy, phase := .Done }

/-- Modelled from the spec: the exit of phase Draining: once no transfer is in flight the
session cleans up; until then it keeps waiting. -/
def drainCheck (cb : FTDIStreamCallback σ) (s : StreamSession σ) : StreamSession σ :=
  if s.inflight = [] then cleanup cb s else s

/-- Modelled from the spec: the entry of phase Draining of `FTDIDevice_ReadStream`: record
the status and ask the transport to cancel every transfer still in flight. -/
def beginDrain (cb : FTDIStreamCallback σ) (st : StreamStatus) (s : StreamSession σ) :
    StreamSession σ :=
  drainCheck cb { s with phase := .Draining, result := st }

/-- Modelled from the spec: phase Init of `FTDIDevice_ReadStream`: a pool of
`numTransfers` buffers of `packetsPerTransfer × FTDI_PACKET_SIZE` bytes. -/
def init (userdata : σ) (packetsPerTransfer numTransfers : Nat) : StreamSession σ :=
  { phase := .Init,
    pool := FTDITransferPool.allocate numTransfers (packetsPerTransfer * FTDI_PACKET_SIZE),
    inflight := [],
    result := .Ok,
    accumulated := 0,
    progressBytes := 0,
    userdata := userdata,
    trace := [] }

/-- Modelled from the spec: phase SubmitInitial of `FTDIDevice_ReadStream`: take each
buffer from the pool and submit it; then stream.  A failed submission gives the buffer
back and aborts to Draining with `SubmitFailed`. -/
def submitInitial (cb : FTDIStreamCallback σ) (submitOk : Nat → Bool) :
    Nat → StreamSession σ → StreamSession σ
  | 0, s => { s with phase := .Streaming }
  | k + 1, s =>
    match s.pool.acquireFree with
    | .error e => beginDrain cb e s
    | .ok (i, pool) =>
      if submitOk i then
        submitInitial cb submitOk k
          { s with phase := .SubmitInitial, pool := pool, inflight := i :: s.inflight }
      else
        beginDrain cb .SubmitFailed { s with pool := pool.release i }

/-- Modelled from the spec: one event of phases Streaming and Draining of
`FTDIDevice_ReadStream`.  Streaming: a failed completion drains with `IOError`; a
completion whose length is not a whole number of packets drains with `FramingError`;
otherwise the decoded payload goes to `callback(DATA, …)`, a non-zero return drains, a
zero return resubmits the same buffer and feeds the raw byte count to the progress
tracker; a timer tick calls `callback(PERIODICAL, …)`, a non-zero return drains.
Draining: every reported transfer is retired without any callback, ticks are suppressed.
The transport reports only transfers it holds. -/
def step (cb : FTDIStreamCallback σ) (s : StreamSession σ) (ev : TransportEvent) :
    StreamSession σ :=
  match s.phase with
  | .Streaming =>
    match ev with
    | .timer =>
      let r := invoke cb .FTDI_CALLBACK_PERIODICAL none 0 s
      if r.1 ≠ 0 then beginDrain cb (.CallbackStop r.1) r.2 else r.2
    | .completion slot status buf =>
      if slot ∈ s.inflight then
        match status with
        | .completed =>
          match decode buf with
          | .error e => beginDrain cb e (retire slot s)
          | .ok payload =>
            let r := invoke cb .FTDI_CALLBACK_DATA (some payload) payload.length
              { s with accumulated := s.accumulated + payload.length }
            if r.1 ≠ 0 then beginDrain cb (.CallbackStop r.1) (retire slot r.2)
            else { r.2 with progressBytes := onBytes r.2.progressBytes buf.length }
        | _ => beginDrain cb .IOError (retire slot s)
      else s
  | .Draining =>
    match ev with
    | .timer => s
    | .completion slot _ _ =>
      if slot ∈ s.inflight then drainCheck cb (retire slot s) else s
  | _ => s

end StreamSession

/-- Modelled from the spec: the session `FTDIDevice_ReadStream` runs (its body is not in
the header) against a mock transport: Init, SubmitInitial, then one step per delivered
event.  The device and interface arguments only select the endpoint and are left out. -/
def runSession {σ : Type} (cb : FTDIStreamCallback σ) (userdata : σ)
    (packetsPerTransfer numTransfers : Nat) (T : Transport) : StreamSession σ :=
  T.events.foldl (StreamSession.step cb)
    (StreamSession.submitInitial cb T.submitOk numTransfers
      (StreamSession.init userdata packetsPerTransfer numTransfers))

/-- A mock transport extended by further events. -/
def Transport.extend (T : Transport) (evs : List TransportEvent) : Transport :=
  { T with events := T.events ++ evs }

/-- The raw buffer built from packets given as (header, payload) pairs. -/
def rawOfPackets (packets : List (List Nat × List Nat)) : List Nat :=
  (packets.map (fun p => p.1 ++ p.2)).flatten

/-- The payloads of the packets, concatenated in packet order. -/
def payloadOfPackets (packets : List (List Nat × List Nat)) : List Nat :=
  (packets.map (fun p => p.2)).flatten

/-- Every packet is a `FTDI_HEADER_SIZE`-byte header followed by a payload that fills the
packet. -/
def WellFramed (packets : List (List Nat × List Nat)) : Prop :=
  ∀ p ∈ packets, p.1.length = FTDI_HEADER_SIZE ∧
    p.2.length = FTDI_PACKET_SIZE - FTDI_HEADER_SIZE

/-- A stretch of the callback log in which no call asked to stop and none was a CLEANUP. -/
def Quiet (t : List CallbackRecord) : Prop :=
  ∀ r ∈ t, r.cbtype ≠ .FTDI_CALLBACK_CLEANUP ∧ r.ret = 0

/-- At most one callback record, and not a CLEANUP: the call that asked to stop, if any. -/
def StopTail (tail : List CallbackRecord) : Prop :=
  tail.length ≤ 1 ∧ ∀ x ∈ tail, x.cbtype ≠ .FTDI_CALLBACK_CLEANUP

/-- The bookkeeping of a session that is streaming or about to drain: the pool invariant
with `n` transfers, and a log that is quiet up to the stretch `tail`. -/
def Core {σ : Type} (n : Nat) (s : StreamSession σ) (tail : List CallbackRecord) : Prop :=
  PoolInv s.pool s.inflight ∧ s.pool.transfercount = n ∧
  ∃ t, s.trace = t ++ tail ∧ Quiet t

/-- The invariant of a session of `n` transfers after SubmitInitial. -/
structure SessionInv {σ : Type} (n : Nat) (s : StreamSession σ) : Prop where
  pool : PoolInv s.pool s.inflight
  count : s.phase ≠ .Done → s.pool.transfercount = n
  phase : s.phase = .Streaming ∨ s.phase = .Draining ∨ s.phase = .Done
  draining : s.phase = .Draining → s.inflight ≠ []
  done : s.phase = .Done → s.inflight = []
  trace : ∃ t tail fin, s.trace = t ++ tail ++ fin ∧ Quiet t ∧ StopTail tail ∧
    (s.phase = .Streaming → tail = [] ∧ fin = []) ∧
    (s.phase = .Draining → fin = []) ∧
    (s.phase = .Done → ∃ c, fin = [c] ∧ c.cbtype = .FTDI_CALLBACK_CLEANUP ∧ c.outstanding = 0)

/-- Pool conservation, spelled out: the free list is well formed, every transfer of the
pool is in exactly one of the sets in-flight and free, neither set names a transfer
outside the pool or the same transfer twice, and the two sizes add up to
`transfercount`. -/
def Conserved (pool : FTDITransferPool) (inflight : List Nat) : Prop :=
  ∃ fl, pool.freeList = some fl ∧
    (∀ i, i < pool.transfercount → (i ∈ inflight ∧ i ∉ fl) ∨ (i ∉ inflight ∧ i ∈ fl)) ∧
    (∀ i, i ∈ inflight ++ fl → i < pool.transfercount) ∧
    (inflight ++ fl).Nodup ∧
    inflight.length + fl.length = pool.transfercount

/-- A consumer callback that never asks to stop. -/
def cbZero : FTDIStreamCallback Unit := fun _ _ _ _ u => (0, u)

/-- A transport that accepts every submission and has delivered nothing yet. -/
def idleTransport : Transport := { submitOk := fun _ => true, events := [] }

/-- One full packet: the header `0x31 0x60` and 510 payload bytes `0xAA`. -/
def samplePacket : List Nat := 0x31 :: 0x60 :: List.replicate 510 0xAA

/-- A transfer buffer of eight full packets. -/
def sampleBuffer : List Nat := (List.replicate 8 samplePacket).flatten

/-- A transport that accepts every submission and has delivered one hundred full
eight-packet transfers. -/
def hundredTransport : Transport :=
  { submitOk := fun _ => true,
    events := List.replicate 100 (.completion 0 .completed sampleBuffer) }

/-! ## The progress tracker -/

/-- The structure `struct timeval` of the samples of `FTDIProgressInfo`: seconds and
microseconds. -/
structure Timeval where
  tv_sec : Int
  tv_usec : Int
  deriving DecidableEq, Repr

/-- Seconds elapsed from timestamp `b` to timestamp `a`, as an exact rational. -/
def Timeval.since (a b : Timeval) : ℚ :=
  ((a.tv_sec - b.tv_sec : Int) : ℚ) + ((a.tv_usec - b.tv_usec : Int) : ℚ) / 1000000

/-- One sample of `FTDIProgressInfo`, the anonymous structure of `first`, `prev` and
`current`: the `uint64_t` cumulative byte count and the time it was taken. -/
structure ProgressSample where
  totalBytes : Nat
  time : Timeval
  deriving DecidableEq, Repr

/-- The structure `FTDIProgressInfo`.  Its three `double` fields are held as exact
rationals: rounding is not modelled. -/
structure FTDIProgressInfo where
  first : ProgressSample
  prev : ProgressSample
  current : ProgressSample
  totalTime : ℚ
  totalRate : ℚ
  currentRate : ℚ

/-- Modelled from the spec: the division guard of `tick()` of the ProgressTracker (the
tracker code is not in the header): a rate over no elapsed time is reported as 0. -/
def guardedRate (bytes : Nat) (elapsed : ℚ) : ℚ :=
  if elapsed = 0 then 0 else (bytes : ℚ) / elapsed

/-- Modelled from the spec: the state of the ProgressTracker (the tracker code is not in
the header): the snapshot it maintains, whether `onBytes` has been called (so that `first`
is set) and whether `tick` has been called (so that `prev` holds a sample). -/
structure ProgressTracker where
  info : FTDIProgressInfo
  started : Bool
  ticked : Bool

namespace ProgressTracker

/-- The tracker of a new session: the zeroed structure. -/
def init : ProgressTracker :=
  { info := { first := ⟨0, ⟨0, 0⟩⟩, prev := ⟨0, ⟨0, 0⟩⟩, current := ⟨0, ⟨0, 0⟩⟩,
              totalTime := 0, totalRate := 0, currentRate := 0 },
    started := false, ticked := false }

/-- Modelled from the spec: `onBytes(n)` of the ProgressTracker at time `now` (the tracker
code is not in the header): adds `n` to the cumulative total, updates the `current`
sample's total and timestamp; on the very first call also sets `first`. -/
def onBytes (tr : ProgressTracker) (n : Nat) (now : Timeval) : ProgressTracker :=
  { tr with
    info := { tr.info with
      current := ⟨FastFTDI.onBytes tr.info.current.totalBytes n, now⟩,
      first := if tr.started then tr.info.first
               else ⟨FastFTDI.onBytes tr.info.current.totalBytes n, now⟩ },
    started := true }

/-- Modelled from the spec: `tick()` of the ProgressTracker at time `now` (the tracker code
is not in the header): copies `current` into `prev` and recomputes
`totalRate = totalBytes / (now - firstTime)` and
`currentRate = (currentTotal - previousTotal) / (now - previousTime)`, the previous sample
being the one the tick before left; the difference of the totals is a `uint64_t`
difference.  A division by zero is guarded, and on the first tick, which has no previous
sample, the current rate is 0. -/
def tick (tr : ProgressTracker) (now : Timeval) : ProgressTracker :=
  { tr with
    info := { tr.info with
      prev := tr.info.current,
      totalTime := now.since tr.info.first.time,
      totalRate := guardedRate tr.info.current.totalBytes (now.since tr.info.first.time),
      currentRate :=
        if tr.ticked then
          guardedRate
            ((tr.info.current.totalBytes + 2 ^ 64 - tr.info.prev.totalBytes) % 2 ^ 64)
            (now.since tr.info.prev.time)
        else 0 },
    ticked := true }

end ProgressTracker

/-- A call made to the progress tracker, with the time at which it is made. -/
inductive TrackerOp where
  | onBytes (n : Nat) (now : Timeval)
  | tick (now : Timeval)
  deriving DecidableEq, Repr

/-- The time at which a tracker call is made. -/
def TrackerOp.time : TrackerOp → Timeval
  | .onBytes _ now => now
  | .tick now => now

/-- The bytes a tracker call reports. -/
def TrackerOp.bytes : TrackerOp → Nat
  | .onBytes n _ => n
  | .tick _ => 0

/-- The tracker after one call. -/
def ProgressTracker.apply (tr : ProgressTracker) : TrackerOp → ProgressTracker
  | .onBytes n now => tr.onBytes n now
  | .tick now => tr.tick now

/-- The tracker after a sequence of calls. -/
def ProgressTracker.run (tr : ProgressTracker) (ops : List TrackerOp) : ProgressTracker :=
  ops.foldl ProgressTracker.apply tr

/-- C7: the native packet is 512 bytes and its status header 2 bytes, so the header is
strictly smaller than a packet and a full packet carries 510 payload bytes; a buffer of
`k` full packets holds `2k` header bytes and `510k` payload bytes, `512k` in all. -/
theorem C7_packet_shape (k : Nat) :
    FTDI_PACKET_SIZE = 512 ∧ FTDI_HEADER_SIZE = 2 ∧
    FTDI_HEADER_SIZE < FTDI_PACKET_SIZE ∧
    FTDI_PACKET_SIZE - FTDI_HEADER_SIZE = 510 ∧
    k * FTDI_HEADER_SIZE = 2 * k ∧
    k * (FTDI_PACKET_SIZE - FTDI_HEADER_SIZE) = 510 * k ∧
    k * FTDI_HEADER_SIZE + k * (FTDI_PACKET_SIZE - FTDI_HEADER_SIZE) = k * FTDI_PACKET_SIZE ∧
    k * FTDI_PACKET_SIZE = 512 * k := by
  have hP : FTDI_PACKET_SIZE = 512 := rfl
  have hH : FTDI_HEADER_SIZE = 2 := rfl
  rw [hP, hH]
  refine ⟨rfl, rfl, by omega, by omega, by omega, by omega, by omega, by omega⟩

/-- C8: `1 << FTDI_LOG_PACKET_SIZE` is `FTDI_PACKET_SIZE`; shifting a length right by
`FTDI_LOG_PACKET_SIZE` is the floor of its quotient by the packet size, shifting the
length plus `FTDI_PACKET_SIZE - 1` is the ceiling, and a length is a multiple of the
packet size exactly when masking it with `FTDI_PACKET_SIZE - 1` gives 0. -/
theorem C8_packet_constants_agree (n : Nat) :
    1 <<< FTDI_LOG_PACKET_SIZE = FTDI_PACKET_SIZE ∧
    n >>> FTDI_LOG_PACKET_SIZE = ⌊(n : ℚ) / (FTDI_PACKET_SIZE : ℚ)⌋₊ ∧
    (n + FTDI_PACKET_SIZE - 1) >>> FTDI_LOG_PACKET_SIZE
      = ⌈(n : ℚ) / (FTDI_PACKET_SIZE : ℚ)⌉₊ ∧
    (FTDI_PACKET_SIZE ∣ n ↔ n &&& (FTDI_PACKET_SIZE - 1) = 0) := by
  have hP : FTDI_PACKET_SIZE = 2 ^ 9 := by decide
  have hL : FTDI_LOG_PACKET_SIZE = 9 := rfl
  refine ⟨by decide, ?_, ?_, ?_⟩
  · rw [Nat.floor_div_eq_div, hL, Nat.shiftRight_eq_div_pow, hP]
  · rw [hL, Nat.shiftRight_eq_div_pow, hP]
    symm
    have h512 : ((2 ^ 9 : ℕ) : ℚ) = 512 := by norm_num
    rw [h512]
    by_cases h0 : (n + 2 ^ 9 - 1) / 2 ^ 9 = 0
    · have hn : n = 0 := by omega
      subst hn
      simp
    · rw [Nat.ceil_eq_iff h0]
      have h1 : n ≤ (n + 2 ^ 9 - 1) / 2 ^ 9 * 512 := by omega
      have h2 : ((n + 2 ^ 9 - 1) / 2 ^ 9 - 1) * 512 < n := by omega
      constructor
      · rw [lt_div_iff₀ (by norm_num)]
        exact_mod_cast h2
      · rw [div_le_iff₀ (by norm_num)]
        exact_mod_cast h1
  · rw [hP, Nat.and_pow_two_sub_one_eq_mod, Nat.dvd_iff_mod_eq_zero]

/-- C9: for an interface number `1 ≤ i ≤ 63`, `FTDI_EP_IN(i) = 0x81 + 2(i-1)` fits in a
byte, has the direction bit `0x80` set and endpoint number `2i-1`; `FTDI_EP_OUT(i) =
0x02 + 2(i-1)` fits in a byte, has the direction bit clear and endpoint number `2i`; both
macros are injective, no IN address is an OUT address, and interfaces A and B map to
IN `0x81`, `0x83` and OUT `0x02`, `0x04`, four distinct addresses. -/
theorem C9_endpoint_addressing (i j : Int) (hi : 1 ≤ i) (hi63 : i ≤ 63)
    (hj : 1 ≤ j) (hj63 : j ≤ 63) :
    (FTDI_EP_IN i = 0x81 + 2 * (i - 1) ∧ 0 ≤ FTDI_EP_IN i ∧ FTDI_EP_IN i < 256 ∧
      endpointDirection (FTDI_EP_IN i) = 0x80 ∧
      (endpointNumber (FTDI_EP_IN i) : Int) = 2 * i - 1) ∧
    (FTDI_EP_OUT i = 0x02 + 2 * (i - 1) ∧ 0 ≤ FTDI_EP_OUT i ∧ FTDI_EP_OUT i < 256 ∧
      endpointDirection (FTDI_EP_OUT i) = 0 ∧
      (endpointNumber (FTDI_EP_OUT i) : Int) = 2 * i) ∧
    (FTDI_EP_IN i = FTDI_EP_IN j → i = j) ∧
    (FTDI_EP_OUT i = FTDI_EP_OUT j → i = j) ∧
    FTDI_EP_IN i ≠ FTDI_EP_OUT j ∧
    [FTDI_EP_IN FTDIInterface.FTDI_INTERFACE_A.val,
     FTDI_EP_IN FTDIInterface.FTDI_INTERFACE_B.val,
     FTDI_EP_OUT FTDIInterface.FTDI_INTERFACE_A.val,
     FTDI_EP_OUT FTDIInterface.FTDI_INTERFACE_B.val] = [0x81, 0x83, 0x02, 0x04] ∧
    [FTDI_EP_IN FTDIInterface.FTDI_INTERFACE_A.val,
     FTDI_EP_IN FTDIInterface.FTDI_INTERFACE_B.val,
     FTDI_EP_OUT FTDIInterface.FTDI_INTERFACE_A.val,
     FTDI_EP_OUT FTDIInterface.FTDI_INTERFACE_B.val].Nodup := by
  refine ⟨⟨?_, ?_, ?_, ?_, ?_⟩, ⟨?_, ?_, ?_, ?_, ?_⟩, ?_, ?_, ?_, by decide, by decide⟩
  · unfold FTDI_EP_IN; omega
  · unfold FTDI_EP_IN; omega
  · unfold FTDI_EP_IN; omega
  · interval_cases i <;> decide
  · interval_cases i <;> decide
  · unfold FTDI_EP_OUT; omega
  · unfold FTDI_EP_OUT; omega
  · unfold FTDI_EP_OUT; omega
  · interval_cases i <;> decide
  · interval_cases i <;> decide
  · unfold FTDI_EP_IN; omega
  · unfold FTDI_EP_OUT; omega
  · unfold FTDI_EP_IN FTDI_EP_OUT; omega

/-- C9 witness: interface B against interface A. -/
theorem C9_endpoint_addressing_witness :
    (1 : Int) ≤ 2 ∧ (2 : Int) ≤ 63 ∧ (1 : Int) ≤ 1 ∧ (1 : Int) ≤ 63 ∧
    FTDI_EP_IN 2 = 0x83 ∧ endpointNumber (FTDI_EP_IN 2) = 3 ∧
    FTDI_EP_IN 2 ≠ FTDI_EP_OUT 1 :=
  have h := C9_endpoint_addressing 2 1 (by decide) (by decide) (by decide) (by decide)
  ⟨by decide, by decide, by decide, by decide, by decide, by decide, h.2.2.2.2.1⟩

/-- C10: `FTDI_BITMODE_RESET` is 0; every other `FTDIBitmode` value is a power of two
`2^j` with `j ≤ 6`, different modes having different values and every exponent `j ≤ 6`
being used; every value fits in a byte; two different non-reset modes have bitwise AND 0;
the bitwise OR of all values is `0x7F`; and `FTDI_BITMODE_SYNC_FIFO` is `0x40`. -/
theorem C10_bitmode_encoding (a b : FTDIBitmode)
    (ha : a ≠ FTDIBitmode.FTDI_BITMODE_RESET) (hb : b ≠ FTDIBitmode.FTDI_BITMODE_RESET)
    (hab : a ≠ b) :
    FTDIBitmode.FTDI_BITMODE_RESET.val = 0 ∧
    (∃ j, j ≤ 6 ∧ a.val = 2 ^ j) ∧
    a.val ≠ b.val ∧
    (∀ j, j ≤ 6 → ∃ m, m ≠ FTDIBitmode.FTDI_BITMODE_RESET ∧ m.val = 2 ^ j) ∧
    FTDIBitmode.all.length = 8 ∧ FTDIBitmode.all.Nodup ∧
    (∀ m : FTDIBitmode, m ∈ FTDIBitmode.all ∧ m.val < 256) ∧
    a.val &&& b.val = 0 ∧
    (FTDIBitmode.all.map FTDIBitmode.val).foldl (· ||| ·) 0 = 0x7F ∧
    FTDIBitmode.FTDI_BITMODE_SYNC_FIFO.val = 0x40 := by
  refine ⟨rfl, ?_, ?_, ?_, rfl, by decide, ?_, ?_, by decide, rfl⟩
  · cases a
    · exact absurd rfl ha
    · exact ⟨0, by decide, rfl⟩
    · exact ⟨1, by decide, rfl⟩
    · exact ⟨2, by decide, rfl⟩
    · exact ⟨3, by decide, rfl⟩
    · exact ⟨4, by decide, rfl⟩
    · exact ⟨5, by decide, rfl⟩
    · exact ⟨6, by decide, rfl⟩
  · cases a <;> cases b <;> first | exact absurd rfl hab | decide
  · intro j hj
    interval_cases j
    · exact ⟨.FTDI_BITMODE_BITBANG, by decide, rfl⟩
    · exact ⟨.FTDI_BITMODE_MPSSE, by decide, rfl⟩
    · exact ⟨.FTDI_BITMODE_SYNC_BITBANG, by decide, rfl⟩
    · exact ⟨.FTDI_BITMODE_MCU, by decide, rfl⟩
    · exact ⟨.FTDI_BITMODE_OPTO, by decide, rfl⟩
    · exact ⟨.FTDI_BITMODE_CBUS, by decide, rfl⟩
    · exact ⟨.FTDI_BITMODE_SYNC_FIFO, by decide, rfl⟩
  · intro m
    cases m <;> decide
  · cases a <;> cases b <;>
      first | exact absurd rfl ha | exact absurd rfl hb | exact absurd rfl hab | decide

/-- C10 witness: bit-bang mode against synchronous FIFO mode. -/
theorem C10_bitmode_encoding_witness :
    FTDIBitmode.FTDI_BITMODE_BITBANG ≠ FTDIBitmode.FTDI_BITMODE_RESET ∧
    FTDIBitmode.FTDI_BITMODE_SYNC_FIFO ≠ FTDIBitmode.FTDI_BITMODE_RESET ∧
    FTDIBitmode.FTDI_BITMODE_BITBANG ≠ FTDIBitmode.FTDI_BITMODE_SYNC_FIFO ∧
    FTDIBitmode.FTDI_BITMODE_BITBANG.val &&& FTDIBitmode.FTDI_BITMODE_SYNC_FIFO.val = 0 :=
  have h := C10_bitmode_encoding .FTDI_BITMODE_BITBANG .FTDI_BITMODE_SYNC_FIFO
    (by decide) (by decide) (by decide)
  ⟨by decide, by decide, by decide, h.2.2.2.2.2.2.2.1⟩

/-! ## Packet decoding -/

theorem rawOfPackets_cons (p : List Nat × List Nat) (ps : List (List Nat × List Nat)) :
    rawOfPackets (p :: ps) = (p.1 ++ p.2) ++ rawOfPackets ps := by
  simp [rawOfPackets]

theorem payloadOfPackets_cons (p : List Nat × List Nat) (ps : List (List Nat × List Nat)) :
    payloadOfPackets (p :: ps) = p.2 ++ payloadOfPackets ps := by
  simp [payloadOfPackets]

theorem rawOfPackets_length (packets : List (List Nat × List Nat))
    (h : WellFramed packets) :
    (rawOfPackets packets).length = packets.length * FTDI_PACKET_SIZE := by
  induction packets with
  | nil => simp [rawOfPackets]
  | cons p ps ih =>
    have hp := h p (List.mem_cons_self _ _)
    have hps : WellFramed ps := fun q hq => h q (List.mem_cons_of_mem _ hq)
    rw [rawOfPackets_cons, List.length_append, List.length_append, ih hps, hp.1, hp.2]
    simp only [FTDI_PACKET_SIZE, FTDI_HEADER_SIZE, List.length_cons]
    omega

theorem payloadOfPackets_length (packets : List (List Nat × List Nat))
    (h : WellFramed packets) :
    (payloadOfPackets packets).length =
      packets.length * (FTDI_PACKET_SIZE - FTDI_HEADER_SIZE) := by
  induction packets with
  | nil => simp [payloadOfPackets]
  | cons p ps ih =>
    have hp := h p (List.mem_cons_self _ _)
    have hps : WellFramed ps := fun q hq => h q (List.mem_cons_of_mem _ hq)
    rw [payloadOfPackets_cons, List.length_append, ih hps, hp.2, List.length_cons]
    simp only [FTDI_PACKET_SIZE, FTDI_HEADER_SIZE]
    omega

theorem stripHeaders_rawOfPackets (packets : List (List Nat × List Nat))
    (h : WellFramed packets) :
    stripHeaders packets.length (rawOfPackets packets) = payloadOfPackets packets := by
  induction packets with
  | nil => simp [stripHeaders, payloadOfPackets]
  | cons p ps ih =>
    have hp := h p (List.mem_cons_self _ _)
    have hps : WellFramed ps := fun q hq => h q (List.mem_cons_of_mem _ hq)
    have hlen : (p.1 ++ p.2).length = FTDI_PACKET_SIZE := by
      rw [List.length_append, hp.1, hp.2]; decide
    rw [List.length_cons, stripHeaders, rawOfPackets_cons, payloadOfPackets_cons,
      List.take_left' hlen, List.drop_left' hlen, List.drop_left' hp.1, ih hps]

theorem decode_rawOfPackets (packets : List (List Nat × List Nat))
    (h : WellFramed packets) :
    decode (rawOfPackets packets) = .ok (payloadOfPackets packets) := by
  have hl := rawOfPackets_length packets h
  have hpos : 0 < FTDI_PACKET_SIZE := by decide
  unfold decode
  rw [hl, Nat.mul_mod_left, Nat.mul_div_cancel _ hpos, stripHeaders_rawOfPackets packets h]
  simp

/-! ## The transfer pool -/

namespace FTDITransferPool

theorem walk_length_le (ts : List FTDITransfer) :
    ∀ (fuel : Nat) (p : Option Nat) (l : List Nat), walk ts fuel p = some l →
      l.length ≤ fuel := by
  intro fuel
  induction fuel with
  | zero =>
    intro p l h
    cases p with
    | none => simp only [walk, Option.some.injEq] at h; subst h; simp
    | some i => simp [walk] at h
  | succ f ih =>
    intro p l h
    cases p with
    | none => simp only [walk, Option.some.injEq] at h; subst h; simp
    | some i =>
      simp only [walk] at h
      cases hti : ts[i]? with
      | none => simp [hti] at h
      | some t =>
        simp only [hti] at h
        cases hw : walk ts f t.next with
        | none => simp [hw] at h
        | some l' =>
          simp only [hw, Option.map_some', Option.some.injEq] at h
          subst h
          have := ih _ _ hw
          simp only [List.length_cons]
          omega

theorem walk_fuel (ts : List FTDITransfer) :
    ∀ (fuel : Nat) (p : Option Nat) (l : List Nat), walk ts fuel p = some l →
      ∀ fuel2, l.length ≤ fuel2 → walk ts fuel2 p = some l := by
  intro fuel
  induction fuel with
  | zero =>
    intro p l h fuel2 _
    cases p with
    | none =>
      simp only [walk, Option.some.injEq] at h
      subst h
      cases fuel2 <;> simp [walk]
    | some i => simp [walk] at h
  | succ f ih =>
    intro p l h fuel2 hlen
    cases p with
    | none =>
      simp only [walk, Option.some.injEq] at h
      subst h
      cases fuel2 <;> simp [walk]
    | some i =>
      simp only [walk] at h
      cases hti : ts[i]? with
      | none => simp [hti] at h
      | some t =>
        simp only [hti] at h
        cases hw : walk ts f t.next with
        | none => simp [hw] at h
        | some l' =>
          simp only [hw, Option.map_some', Option.some.injEq] at h
          subst h
          cases fuel2 with
          | zero => simp at hlen
          | succ g =>
            simp only [List.length_cons, Nat.add_le_add_iff_right] at hlen
            simp only [walk, hti, ih _ _ hw g hlen, Option.map_some']

theorem walk_set (ts : List FTDITransfer) (i : Nat) (t2 : FTDITransfer) :
    ∀ (fuel : Nat) (p : Option Nat) (l : List Nat), walk ts fuel p = some l → i ∉ l →
      walk (ts.set i t2) fuel p = some l := by
  intro fuel
  induction fuel with
  | zero =>
    intro p l h _
    cases p with
    | none => simpa [walk] using h
    | some j => simp [walk] at h
  | succ f ih =>
    intro p l h hi
    cases p with
    | none => simpa [walk] using h
    | some j =>
      simp only [walk] at h
      cases htj : ts[j]? with
      | none => simp [htj] at h
      | some t =>
        simp only [htj] at h
        cases hw : walk ts f t.next with
        | none => simp [hw] at h
        | some l' =>
          simp only [hw, Option.map_some', Option.some.injEq] at h
          subst h
          have hij : i ≠ j := fun e => hi (by simp [e])
          have hil : i ∉ l' := fun e => hi (List.mem_cons_of_mem _ e)
          simp only [walk, List.getElem?_set_ne hij, htj, ih _ _ hw hil, Option.map_some']

end FTDITransferPool

theorem PoolInv.length_eq {pool : FTDITransferPool} {inflight fl : List Nat}
    (hfl : pool.freeList = some fl) (h : PoolInv pool inflight) :
    (inflight ++ fl).Perm (List.range pool.transfercount) := by
  obtain ⟨_, fl2, h2, hp⟩ := h
  rw [hfl] at h2
  cases h2
  exact hp

theorem PoolInv_release {pool : FTDITransferPool} {inflight : List Nat} {i : Nat}
    (h : PoolInv pool inflight) (hi : i ∈ inflight) :
    PoolInv (pool.release i) (inflight.erase i) ∧
      (pool.release i).transfercount = pool.transfercount := by
  obtain ⟨hlen, fl, hfl, hperm⟩ := h
  have hnd : (inflight ++ fl).Nodup := hperm.nodup_iff.2 (List.nodup_range _)
  have hi_lt : i < pool.transfercount := by
    have : i ∈ List.range pool.transfercount :=
      hperm.subset (List.mem_append_left _ hi)
    simpa using this
  have hi_fl : i ∉ fl := fun e => (List.nodup_append.1 hnd).2.2 hi e
  have hcount : inflight.length + fl.length = pool.transfercount := by
    have := hperm.length_eq
    simpa using this
  have hpos : 0 < inflight.length := List.length_pos_of_mem hi
  have hget : ∃ t, pool.transfer[i]? = some t := by
    have : i < pool.transfer.length := by omega
    exact ⟨pool.transfer[i], List.getElem?_eq_getElem this⟩
  obtain ⟨t, ht⟩ := hget
  have hrel : pool.release i =
      { pool with transfer := pool.transfer.set i { t with next := pool.free },
                  free := some i } := by
    simp [FTDITransferPool.release, ht]
  rw [hrel]
  refine ⟨⟨by simpa using hlen, i :: fl, ?_, ?_⟩, rfl⟩
  · obtain ⟨n, hn⟩ : ∃ n, pool.transfercount = n + 1 := ⟨pool.transfercount - 1, by omega⟩
    have hlow : FTDITransferPool.walk pool.transfer n pool.free = some fl :=
      FTDITransferPool.walk_fuel _ _ _ _ hfl n (by omega)
    have hset := FTDITransferPool.walk_set pool.transfer i { t with next := pool.free }
      n pool.free fl hlow hi_fl
    have hself : (pool.transfer.set i { t with next := pool.free })[i]? =
        some { t with next := pool.free } := by
      rw [List.getElem?_set]
      simp only [if_true]
      rw [if_pos (by omega)]
    simp only [FTDITransferPool.freeList, hn, FTDITransferPool.walk, hself, hset,
      Option.map_some']
  · have h1 : (inflight ++ fl).Perm (i :: (inflight.erase i ++ fl)) :=
      (List.perm_cons_erase hi).append_right fl
    have h2 : (inflight.erase i ++ i :: fl).Perm (i :: (inflight.erase i ++ fl)) :=
      List.perm_middle
    exact (h2.trans h1.symm).trans hperm

theorem PoolInv_acquireFree {pool pool2 : FTDITransferPool} {inflight : List Nat} {i : Nat}
    (h : PoolInv pool inflight) (ha : pool.acquireFree = .ok (i, pool2)) :
    i ∉ inflight ∧ PoolInv pool2 (i :: inflight) ∧
      pool2.transfercount = pool.transfercount := by
  obtain ⟨hlen, fl, hfl, hperm⟩ := h
  have hnd : (inflight ++ fl).Nodup := hperm.nodup_iff.2 (List.nodup_range _)
  unfold FTDITransferPool.acquireFree at ha
  cases hfree : pool.free with
  | none => simp [hfree] at ha
  | some j =>
    simp only [hfree] at ha
    cases htj : pool.transfer[j]? with
    | none => simp [htj] at ha
    | some t =>
      simp only [htj, Except.ok.injEq, Prod.mk.injEq] at ha
      obtain ⟨rfl, rfl⟩ := ha
      unfold FTDITransferPool.freeList at hfl
      rw [hfree] at hfl
      rcases Nat.eq_zero_or_pos pool.transfercount with h0 | hpos
      · rw [h0] at hfl; simp [FTDITransferPool.walk] at hfl
      · obtain ⟨n, hn⟩ : ∃ n, pool.transfercount = n + 1 :=
          ⟨pool.transfercount - 1, by omega⟩
        rw [hn] at hfl
        simp only [FTDITransferPool.walk, htj] at hfl
        cases hw : FTDITransferPool.walk pool.transfer n t.next with
        | none => simp [hw] at hfl
        | some l' =>
          simp only [hw, Option.map_some', Option.some.injEq] at hfl
          subst hfl
          have hjnot : j ∉ inflight := fun e =>
            (List.nodup_append.1 hnd).2.2 e (List.mem_cons_self _ _)
          refine ⟨hjnot, ⟨hlen, l', ?_, ?_⟩, rfl⟩
          · have hle := FTDITransferPool.walk_length_le _ _ _ _ hw
            simp only [FTDITransferPool.freeList]
            exact FTDITransferPool.walk_fuel _ _ _ _ hw _ (by omega)
          · have h2 : (inflight ++ j :: l').Perm (j :: (inflight ++ l')) := List.perm_middle
            exact h2.symm.trans hperm

theorem PoolInv_releaseAll : ∀ (l inflight : List Nat) (pool : FTDITransferPool),
    PoolInv pool (l ++ inflight) →
      PoolInv (l.foldl FTDITransferPool.release pool) inflight ∧
      (l.foldl FTDITransferPool.release pool).transfercount = pool.transfercount := by
  intro l
  induction l with
  | nil => intro inflight pool h; exact ⟨h, rfl⟩
  | cons a l ih =>
    intro inflight pool h
    have hr := PoolInv_release (i := a) h (by simp)
    simp only [List.cons_append, List.erase_cons_head] at hr
    have := ih inflight _ hr.1
    simp only [List.foldl_cons]
    exact ⟨this.1, this.2.trans hr.2⟩

theorem PoolInv_allocate (depth bufferSize : Nat) :
    PoolInv (FTDITransferPool.allocate depth bufferSize) [] ∧
      (FTDITransferPool.allocate depth bufferSize).transfercount = depth := by
  have h0 : PoolInv
      { transfer := (List.range depth).map
          (fun i => ({ transfer := { length := bufferSize }, next := none, userdata := i } :
            FTDITransfer)),
        transfercount := depth, free := none } (List.range depth ++ []) := by
    refine ⟨by simp, [], ?_, by simp⟩
    simp only [FTDITransferPool.freeList]
    cases depth <;> simp [FTDITransferPool.walk]
  exact PoolInv_releaseAll _ _ _ h0

theorem PoolInv_destroy (pool : FTDITransferPool) : PoolInv pool.destroy [] := by
  refine ⟨rfl, [], ?_, by simp [FTDITransferPool.destroy]⟩
  simp [FTDITransferPool.freeList, FTDITransferPool.destroy, FTDITransferPool.walk]

/-! ## The session invariant -/

namespace StreamSession

variable {σ : Type}

@[simp]
theorem invoke_pool (cb : FTDIStreamCallback σ) (ty : FTDICallbackType)
    (buf : Option (List Nat)) (len : Nat) (s : StreamSession σ) :
    (invoke cb ty buf len s).2.pool = s.pool := rfl

@[simp]
theorem invoke_inflight (cb : FTDIStreamCallback σ) (ty : FTDICallbackType)
    (buf : Option (List Nat)) (len : Nat) (s : StreamSession σ) :
    (invoke cb ty buf len s).2.inflight = s.inflight := rfl

@[simp]
theorem invoke_phase (cb : FTDIStreamCallback σ) (ty : FTDICallbackType)
    (buf : Option (List Nat)) (len : Nat) (s : StreamSession σ) :
    (invoke cb ty buf len s).2.phase = s.phase := rfl

@[simp]
theorem invoke_result (cb : FTDIStreamCallback σ) (ty : FTDICallbackType)
    (buf : Option (List Nat)) (len : Nat) (s : StreamSession σ) :
    (invoke cb ty buf len s).2.result = s.result := rfl

@[simp]
theorem invoke_accumulated (cb : FTDIStreamCallback σ) (ty : FTDICallbackType)
    (buf : Option (List Nat)) (len : Nat) (s : StreamSession σ) :
    (invoke cb ty buf len s).2.accumulated = s.accumulated := rfl

theorem invoke_trace (cb : FTDIStreamCallback σ) (ty : FTDICallbackType)
    (buf : Option (List Nat)) (len : Nat) (s : StreamSession σ) :
    (invoke cb ty buf len s).2.trace =
      s.trace ++ [{ cbtype := ty, buffer := buf, length := len,
                    ret := (invoke cb ty buf len s).1,
                    outstanding := s.inflight.length }] := rfl

theorem drainCheck_trace (cb : FTDIStreamCallback σ) (s : StreamSession σ) :
    ∃ rest, (drainCheck cb s).trace = s.trace ++ rest := by
  unfold drainCheck
  split
  · exact ⟨[⟨.FTDI_CALLBACK_CLEANUP, none, 0,
      (invoke cb .FTDI_CALLBACK_CLEANUP none 0 { s with phase := .Cleanup }).1,
      s.inflight.length⟩], rfl⟩
  · exact ⟨[], (List.append_nil _).symm⟩

theorem beginDrain_trace (cb : FTDIStreamCallback σ) (st : StreamStatus)
    (s : StreamSession σ) : ∃ rest, (beginDrain cb st s).trace = s.trace ++ rest :=
  drainCheck_trace cb _

theorem step_delivers (cb : FTDIStreamCallback σ) (s : StreamSession σ) (slot : Nat)
    (buf payload : List Nat) (hd : decode buf = .ok payload)
    (hph : s.phase = .Streaming) (hslot : slot ∈ s.inflight) :
    ∃ ret rest, (step cb s (.completion slot .completed buf)).trace =
      s.trace ++ (⟨.FTDI_CALLBACK_DATA, some payload, payload.length, ret,
        s.inflight.length⟩ :: rest) := by
  obtain ⟨phase, pool, inflight, result, accumulated, progressBytes, userdata, trace⟩ := s
  simp only at hph hslot
  subst hph
  simp only [step, if_pos hslot, hd]
  split
  · obtain ⟨rest, hr⟩ := beginDrain_trace cb
      (.CallbackStop (invoke cb .FTDI_CALLBACK_DATA (some payload) payload.length
        ⟨.Streaming, pool, inflight, result, accumulated + payload.length, progressBytes,
          userdata, trace⟩).1)
      (retire slot (invoke cb .FTDI_CALLBACK_DATA (some payload) payload.length
        ⟨.Streaming, pool, inflight, result, accumulated + payload.length, progressBytes,
          userdata, trace⟩).2)
    refine ⟨(invoke cb .FTDI_CALLBACK_DATA (some payload) payload.length
        ⟨.Streaming, pool, inflight, result, accumulated + payload.length, progressBytes,
          userdata, trace⟩).1, rest, hr.trans ?_⟩
    simp only [retire, invoke_trace, List.append_assoc, List.singleton_append]
  · refine ⟨(invoke cb .FTDI_CALLBACK_DATA (some payload) payload.length
        ⟨.Streaming, pool, inflight, result, accumulated + payload.length, progressBytes,
          userdata, trace⟩).1, [], ?_⟩
    simp only [invoke_trace]

theorem Quiet_nil : Quiet [] := fun _ h => absurd h (List.not_mem_nil _)

theorem Quiet_snoc {t : List CallbackRecord} {r : CallbackRecord} (ht : Quiet t)
    (h1 : r.cbtype ≠ .FTDI_CALLBACK_CLEANUP) (h2 : r.ret = 0) : Quiet (t ++ [r]) := by
  intro x hx
  rcases List.mem_append.1 hx with hx | hx
  · exact ht x hx
  · rw [List.mem_singleton.1 hx]; exact ⟨h1, h2⟩

theorem StopTail_nil : StopTail [] :=
  ⟨by simp, fun _ h => absurd h (List.not_mem_nil _)⟩

theorem inv_cleanup (cb : FTDIStreamCallback σ) (n : Nat) (s : StreamSession σ)
    (tail : List CallbackRecord) (hin : s.inflight = [])
    (htr : ∃ t, s.trace = t ++ tail ∧ Quiet t) (htail : StopTail tail) :
    SessionInv n (cleanup cb s) := by
  obtain ⟨t, ht, hq⟩ := htr
  refine ⟨?_, ?_, ?_, ?_, ?_, ?_⟩
  · simp only [cleanup, invoke_inflight, hin]
    exact PoolInv_destroy _
  · intro h; exact absurd rfl h
  · exact Or.inr (Or.inr rfl)
  · intro h; simp [cleanup] at h
  · intro _; simpa [cleanup] using hin
  · refine ⟨t, tail, [⟨.FTDI_CALLBACK_CLEANUP, none, 0,
        (invoke cb .FTDI_CALLBACK_CLEANUP none 0 { s with phase := .Cleanup }).1,
        s.inflight.length⟩], ?_, hq, htail, ?_, ?_, ?_⟩
    · simp only [cleanup, invoke_trace, ht]
    · intro h; simp [cleanup] at h
    · intro h; simp [cleanup] at h
    · intro _; exact ⟨_, rfl, rfl, by simp [hin]⟩

theorem inv_drainCheck (cb : FTDIStreamCallback σ) (n : Nat) (s : StreamSession σ)
    (tail : List CallbackRecord) (hc : Core n s tail) (htail : StopTail tail)
    (hph : s.phase = .Draining) : SessionInv n (drainCheck cb s) := by
  unfold drainCheck
  split
  · next hin => exact inv_cleanup cb n s tail hin hc.2.2 htail
  · next hin =>
    obtain ⟨hp, hn, t, ht, hq⟩ := hc
    refine ⟨hp, fun _ => hn, Or.inr (Or.inl hph), fun _ => hin, ?_, ?_⟩
    · intro h; rw [hph] at h; cases h
    · refine ⟨t, tail, [], by simpa using ht, hq, htail, ?_, fun _ => rfl, ?_⟩
      · intro h; rw [hph] at h; cases h
      · intro h; rw [hph] at h; cases h

theorem inv_beginDrain (cb : FTDIStreamCallback σ) (n : Nat) (st : StreamStatus)
    (s : StreamSession σ) (tail : List CallbackRecord) (hc : Core n s tail)
    (htail : StopTail tail) : SessionInv n (beginDrain cb st s) :=
  inv_drainCheck cb n _ tail hc htail rfl

theorem Core_retire {n : Nat} {s : StreamSession σ} {tail : List CallbackRecord}
    {slot : Nat} (hc : Core n s tail) (hs : slot ∈ s.inflight) :
    Core n (retire slot s) tail := by
  obtain ⟨hp, hn, htr⟩ := hc
  have := PoolInv_release hp hs
  exact ⟨this.1, this.2.trans hn, htr⟩

theorem Core_of_streaming {n : Nat} {s : StreamSession σ} (h : SessionInv n s)
    (hph : s.phase = .Streaming) : Core n s [] := by
  obtain ⟨t, tail, fin, ht, hq, _, h1, _, _⟩ := h.trace
  obtain ⟨rfl, rfl⟩ := h1 hph
  exact ⟨h.pool, h.count (by rw [hph]; decide), t, by simpa using ht, hq⟩

theorem Core_of_draining {n : Nat} {s : StreamSession σ} (h : SessionInv n s)
    (hph : s.phase = .Draining) : ∃ tail, StopTail tail ∧ Core n s tail := by
  obtain ⟨t, tail, fin, ht, hq, htail, _, h2, _⟩ := h.trace
  have := h2 hph
  subst this
  exact ⟨tail, htail, h.pool, h.count (by rw [hph]; decide), t, by simpa using ht, hq⟩

theorem inv_streaming {n : Nat} {s : StreamSession σ} (hc : Core n s [])
    (hph : s.phase = .Streaming) : SessionInv n s := by
  obtain ⟨hp, hn, t, ht, hq⟩ := hc
  refine ⟨hp, fun _ => hn, Or.inl hph, ?_, ?_, t, [], [], by simpa using ht, hq,
    StopTail_nil, fun _ => ⟨rfl, rfl⟩, fun _ => rfl, ?_⟩
  · intro h; rw [hph] at h; cases h
  · intro h; rw [hph] at h; cases h
  · intro h; rw [hph] at h; cases h

theorem Core_invoke (cb : FTDIStreamCallback σ) (ty : FTDICallbackType)
    (buf : Option (List Nat)) (len : Nat) {n : Nat} {s : StreamSession σ}
    (hc : Core n s []) (hty : ty ≠ .FTDI_CALLBACK_CLEANUP) :
    (∃ r, StopTail [r] ∧ Core n (invoke cb ty buf len s).2 [r]) ∧
    ((invoke cb ty buf len s).1 = 0 → Core n (invoke cb ty buf len s).2 []) := by
  obtain ⟨hp, hn, t, ht, hq⟩ := hc
  simp only [List.append_nil] at ht
  refine ⟨⟨⟨ty, buf, len, (invoke cb ty buf len s).1, s.inflight.length⟩,
    ⟨by simp, ?_⟩, hp, hn, t, ?_, hq⟩, ?_⟩
  · intro x hx
    rw [List.mem_singleton.1 hx]
    exact hty
  · rw [invoke_trace, ht]
  · intro h0
    refine ⟨hp, hn, _, ?_,
      Quiet_snoc (r := ⟨ty, buf, len, (invoke cb ty buf len s).1, s.inflight.length⟩)
        hq hty h0⟩
    rw [invoke_trace, ht, List.append_nil]

theorem inv_step (cb : FTDIStreamCallback σ) (n : Nat) (s : StreamSession σ)
    (ev : TransportEvent) (h : SessionInv n s) : SessionInv n (step cb s ev) := by
  rcases h.phase with hph | hph | hph
  · have hc := Core_of_streaming h hph
    cases ev with
    | timer =>
      simp only [step, hph]
      have hi := Core_invoke cb .FTDI_CALLBACK_PERIODICAL none 0 hc (by decide)
      split
      · obtain ⟨r, hr, hcr⟩ := hi.1
        exact inv_beginDrain cb n _ _ _ hcr hr
      · next hz =>
        exact inv_streaming (hi.2 (by simpa using hz)) (by simpa using hph)
    | completion slot status buf =>
      simp only [step, hph]
      split
      · next hs =>
        cases status with
        | completed =>
          simp only []
          cases hd : decode buf with
          | error e =>
            simp only []
            exact inv_beginDrain cb n _ _ _ (Core_retire hc hs) StopTail_nil
          | ok payload =>
            simp only []
            have hc2 : Core n { s with accumulated := s.accumulated + payload.length } [] := hc
            have hi := Core_invoke cb .FTDI_CALLBACK_DATA (some payload) payload.length
              hc2 (by decide)
            split
            · obtain ⟨r, hr, hcr⟩ := hi.1
              exact inv_beginDrain cb n _ _ _
                (Core_retire hcr (by simpa using hs)) hr
            · next hz =>
              have := hi.2 (by simpa using hz)
              exact inv_streaming this (by simp [hph])
        | error =>
          exact inv_beginDrain cb n _ _ _ (Core_retire hc hs) StopTail_nil
        | cancelled =>
          exact inv_beginDrain cb n _ _ _ (Core_retire hc hs) StopTail_nil
      · exact h
  · obtain ⟨tail, htail, hc⟩ := Core_of_draining h hph
    cases ev with
    | timer => simpa only [step, hph] using h
    | completion slot status buf =>
      simp only [step, hph]
      split
      · next hs => exact inv_drainCheck cb n _ tail (Core_retire hc hs) htail hph
      · exact h
  · simpa only [step, hph] using h

end StreamSession

theorem Conserved_of_PoolInv {pool : FTDITransferPool} {inflight : List Nat}
    (h : PoolInv pool inflight) : Conserved pool inflight := by
  obtain ⟨_, fl, hfl, hperm⟩ := h
  have hnd : (inflight ++ fl).Nodup := hperm.nodup_iff.2 (List.nodup_range _)
  have hdisj := (List.nodup_append.1 hnd).2.2
  refine ⟨fl, hfl, ?_, ?_, hnd, by simpa using hperm.length_eq⟩
  · intro i hi
    have hmem : i ∈ inflight ++ fl := hperm.mem_iff.2 (List.mem_range.2 hi)
    rcases List.mem_append.1 hmem with h1 | h1
    · exact Or.inl ⟨h1, fun e => hdisj h1 e⟩
    · exact Or.inr ⟨fun e => hdisj e h1, h1⟩
  · intro i hi
    exact List.mem_range.1 (hperm.mem_iff.1 hi)

namespace StreamSession

variable {σ : Type}

theorem inv_submitInitial (cb : FTDIStreamCallback σ) (ok : Nat → Bool) (n : Nat) :
    ∀ (k : Nat) (s : StreamSession σ), Core n s [] →
      SessionInv n (submitInitial cb ok k s) := by
  intro k
  induction k with
  | zero =>
    intro s hc
    exact inv_streaming (s := { s with phase := .Streaming }) hc rfl
  | succ k ih =>
    intro s hc
    simp only [submitInitial]
    cases ha : s.pool.acquireFree with
    | error e => exact inv_beginDrain cb n _ _ _ hc StopTail_nil
    | ok v =>
      obtain ⟨i, pool2⟩ := v
      obtain ⟨hp, hn, htr⟩ := hc
      have hacq := PoolInv_acquireFree hp ha
      simp only []
      split
      · exact ih _ ⟨hacq.2.1, hacq.2.2.trans hn, htr⟩
      · have hrel := PoolInv_release (i := i) hacq.2.1 (List.mem_cons_self _ _)
        rw [List.erase_cons_head] at hrel
        exact inv_beginDrain cb n _ _ _
          ⟨hrel.1, (hrel.2.trans hacq.2.2).trans hn, htr⟩ StopTail_nil

theorem Core_init (userdata : σ) (p n : Nat) : Core n (init userdata p n) [] := by
  have h := PoolInv_allocate n (p * FTDI_PACKET_SIZE)
  exact ⟨h.1, h.2, [], rfl, Quiet_nil⟩

theorem inv_foldl (cb : FTDIStreamCallback σ) (n : Nat) :
    ∀ (evs : List TransportEvent) (s : StreamSession σ), SessionInv n s →
      SessionInv n (evs.foldl (step cb) s) := by
  intro evs
  induction evs with
  | nil => intro s h; exact h
  | cons ev evs ih => intro s h; exact ih _ (inv_step cb n s ev h)

end StreamSession

theorem inv_runSession {σ : Type} (cb : FTDIStreamCallback σ) (userdata : σ)
    (p n : Nat) (T : Transport) : SessionInv n (runSession cb userdata p n T) :=
  StreamSession.inv_foldl cb n _ _
    (StreamSession.inv_submitInitial cb T.submitOk n n _ (StreamSession.Core_init userdata p n))

namespace StreamSession

variable {σ : Type}

end StreamSession

theorem stripHeaders_length : ∀ (k : Nat) (buf : List Nat),
    buf.length = k * FTDI_PACKET_SIZE →
      (stripHeaders k buf).length = k * (FTDI_PACKET_SIZE - FTDI_HEADER_SIZE) := by
  intro k
  induction k with
  | zero => intro buf _; simp [stripHeaders]
  | succ k ih =>
    intro buf h
    have hP : FTDI_PACKET_SIZE = 512 := rfl
    have hH : FTDI_HEADER_SIZE = 2 := rfl
    have hrest : (buf.drop FTDI_PACKET_SIZE).length = k * FTDI_PACKET_SIZE := by
      rw [List.length_drop, h, hP]; omega
    have ih2 := ih _ hrest
    simp only [stripHeaders, List.length_append, List.length_drop, List.length_take]
    rw [ih2, h]
    simp only [hP, hH]
    omega

theorem decode_full (p : Nat) (buf : List Nat) (h : buf.length = p * FTDI_PACKET_SIZE) :
    decode buf = .ok (stripHeaders p buf) := by
  have hpos : 0 < FTDI_PACKET_SIZE := by decide
  unfold decode
  rw [h, Nat.mul_mod_left, Nat.mul_div_cancel _ hpos]
  simp

theorem release_capacity (pool : FTDITransferPool) (i b : Nat)
    (h : ∀ t ∈ pool.transfer, t.transfer.length = b) :
    ∀ t ∈ (pool.release i).transfer, t.transfer.length = b := by
  unfold FTDITransferPool.release
  cases hti : pool.transfer[i]? with
  | none => simpa using h
  | some t0 =>
    intro t ht
    simp only [] at ht
    rcases List.mem_or_eq_of_mem_set ht with h1 | h1
    · exact h t h1
    · rw [h1]
      exact h t0 (List.getElem?_mem hti)

theorem releaseAll_capacity (b : Nat) : ∀ (l : List Nat) (pool : FTDITransferPool),
    (∀ t ∈ pool.transfer, t.transfer.length = b) →
      ∀ t ∈ (l.foldl FTDITransferPool.release pool).transfer, t.transfer.length = b := by
  intro l
  induction l with
  | nil => intro pool h; exact h
  | cons a l ih => intro pool h; exact ih _ (release_capacity pool a b h)

theorem allocate_capacity (depth bufferSize : Nat) :
    ∀ t ∈ (FTDITransferPool.allocate depth bufferSize).transfer,
      t.transfer.length = bufferSize := by
  apply releaseAll_capacity
  intro t ht
  simp only [List.mem_map] at ht
  obtain ⟨i, _, rfl⟩ := ht
  rfl

theorem acquireFree_ok {pool : FTDITransferPool} {x : Nat} {fl : List Nat}
    (hfl : pool.freeList = some (x :: fl)) :
    ∃ pool2, pool.acquireFree = .ok (x, pool2) ∧ pool2.transfer = pool.transfer := by
  unfold FTDITransferPool.freeList at hfl
  cases hfree : pool.free with
  | none =>
    rw [hfree] at hfl
    rcases Nat.eq_zero_or_pos pool.transfercount with h0 | hpos
    · rw [h0] at hfl; simp [FTDITransferPool.walk] at hfl
    · obtain ⟨m, hm⟩ : ∃ m, pool.transfercount = m + 1 := ⟨pool.transfercount - 1, by omega⟩
      rw [hm] at hfl; simp [FTDITransferPool.walk] at hfl
  | some j =>
    rw [hfree] at hfl
    rcases Nat.eq_zero_or_pos pool.transfercount with h0 | hpos
    · rw [h0] at hfl; simp [FTDITransferPool.walk] at hfl
    · obtain ⟨m, hm⟩ : ∃ m, pool.transfercount = m + 1 := ⟨pool.transfercount - 1, by omega⟩
      rw [hm] at hfl
      simp only [FTDITransferPool.walk] at hfl
      cases htj : pool.transfer[j]? with
      | none => simp [htj] at hfl
      | some t =>
        simp only [htj] at hfl
        cases hw : FTDITransferPool.walk pool.transfer m t.next with
        | none => simp [hw] at hfl
        | some l' =>
          simp only [hw, Option.map_some', Option.some.injEq, List.cons.injEq] at hfl
          obtain ⟨rfl, _⟩ := hfl
          exact ⟨{ pool with free := t.next },
            by simp [FTDITransferPool.acquireFree, hfree, htj], rfl⟩

namespace StreamSession

variable {σ : Type}

theorem submitInitial_all (cb : FTDIStreamCallback σ) (ok : Nat → Bool)
    (hok : ∀ i, ok i = true) :
    ∀ (k : Nat) (s : StreamSession σ), PoolInv s.pool s.inflight →
      s.inflight.length + k = s.pool.transfercount →
      (submitInitial cb ok k s).phase = .Streaming ∧
      (submitInitial cb ok k s).inflight.length = s.pool.transfercount ∧
      (submitInitial cb ok k s).pool.transfer = s.pool.transfer ∧
      (submitInitial cb ok k s).trace = s.trace ∧
      (submitInitial cb ok k s).accumulated = s.accumulated := by
  intro k
  induction k with
  | zero =>
    intro s _ hlen
    exact ⟨rfl, by simpa using hlen, rfl, rfl, rfl⟩
  | succ k ih =>
    intro s hp hlen
    obtain ⟨_, fl, hfl, hperm⟩ := id hp
    have hcount : s.inflight.length + fl.length = s.pool.transfercount := by
      simpa using hperm.length_eq
    cases fl with
    | nil => simp at hcount; omega
    | cons x fl' =>
      obtain ⟨pool2, hacq, htr⟩ := acquireFree_ok hfl
      have hinv2 := PoolInv_acquireFree hp hacq
      simp only [submitInitial, hacq, hok x, if_true]
      have := ih { s with phase := .SubmitInitial, pool := pool2, inflight := x :: s.inflight }
        hinv2.2.1 (by simp only [List.length_cons]; rw [hinv2.2.2]; omega)
      simp only [hinv2.2.2, htr] at this
      exact this

theorem step_data (cb : FTDIStreamCallback σ) (p : Nat) (s : StreamSession σ)
    (slot : Nat) (buf : List Nat)
    (hcb : ∀ b len prog u, (cb .FTDI_CALLBACK_DATA b len prog u).1 = 0)
    (hph : s.phase = .Streaming) (hslot : slot ∈ s.inflight)
    (hlen : buf.length = p * FTDI_PACKET_SIZE) :
    (step cb s (.completion slot .completed buf)).phase = .Streaming ∧
    (step cb s (.completion slot .completed buf)).inflight = s.inflight ∧
    (step cb s (.completion slot .completed buf)).pool = s.pool ∧
    (step cb s (.completion slot .completed buf)).accumulated
      = s.accumulated + p * (FTDI_PACKET_SIZE - FTDI_HEADER_SIZE) ∧
    (step cb s (.completion slot .completed buf)).trace.map (fun r => (r.cbtype, r.length))
      = s.trace.map (fun r => (r.cbtype, r.length)) ++
        [(.FTDI_CALLBACK_DATA, p * (FTDI_PACKET_SIZE - FTDI_HEADER_SIZE))] := by
  have hd := decode_full p buf hlen
  have hl := stripHeaders_length p buf hlen
  have hz : ∀ (b : Option (List Nat)) (len : Nat) (s2 : StreamSession σ),
      (invoke cb .FTDI_CALLBACK_DATA b len s2).1 = 0 := fun b len s2 => hcb _ _ _ _
  simp only [step, hph, if_pos hslot, hd, hz, ne_eq, not_true_eq_false, if_false]
  refine ⟨by simp [hph], rfl, rfl, ?_, ?_⟩
  · simp [hl]
  · simp [invoke_trace, hl]

end StreamSession

namespace StreamSession

variable {σ : Type}

theorem foldl_data (cb : FTDIStreamCallback σ) (p : Nat)
    (hcb : ∀ b len prog u, (cb .FTDI_CALLBACK_DATA b len prog u).1 = 0) :
    ∀ (evs : List TransportEvent) (s : StreamSession σ), s.phase = .Streaming →
      (∀ ev ∈ evs, ∃ slot buf, ev = .completion slot .completed buf ∧ slot ∈ s.inflight ∧
        buf.length = p * FTDI_PACKET_SIZE) →
      (evs.foldl (step cb) s).phase = .Streaming ∧
      (evs.foldl (step cb) s).pool = s.pool ∧
      (evs.foldl (step cb) s).accumulated
        = s.accumulated + evs.length * (p * (FTDI_PACKET_SIZE - FTDI_HEADER_SIZE)) ∧
      (evs.foldl (step cb) s).trace.map (fun r => (r.cbtype, r.length))
        = s.trace.map (fun r => (r.cbtype, r.length)) ++
          List.replicate evs.length
            (.FTDI_CALLBACK_DATA, p * (FTDI_PACKET_SIZE - FTDI_HEADER_SIZE)) := by
  intro evs
  induction evs with
  | nil => intro s hph _; exact ⟨hph, rfl, by simp, by simp⟩
  | cons ev evs ih =>
    intro s hph hev
    obtain ⟨slot, buf, rfl, hslot, hlen⟩ := hev _ (List.mem_cons_self _ _)
    have h1 := step_data cb p s slot buf hcb hph hslot hlen
    have h2 := ih _ h1.1 (fun e he => by
      obtain ⟨sl, b, h3, h4, h5⟩ := hev e (List.mem_cons_of_mem _ he)
      exact ⟨sl, b, h3, by rw [h1.2.1]; exact h4, h5⟩)
    simp only [List.foldl_cons, List.length_cons]
    refine ⟨h2.1, h2.2.1.trans h1.2.2.1, ?_, ?_⟩
    · rw [h2.2.2.1, h1.2.2.2.1, Nat.add_mul]; omega
    · rw [h2.2.2.2, h1.2.2.2.2, List.append_assoc, List.replicate_succ]
      rfl

end StreamSession

/-- C6: end-to-end sizes.  With the header's constants a transfer buffer of 8 packets is
4096 bytes and decodes to 4080 bytes, 408000 after 100 completions.  In general, in a
session of `packetsPerTransfer ≥ 1` whose transport accepts every submission and delivers
only full completions, and whose DATA callback never asks to stop, every buffer of the pool
has `packetsPerTransfer × FTDI_PACKET_SIZE` bytes, every completion hands
`packetsPerTransfer × 510` decoded bytes to one DATA call, and after `n` completions the
cumulative decoded total is `n × packetsPerTransfer × 510`. -/
theorem C6_end_to_end_sizes {σ : Type} (cb : FTDIStreamCallback σ) (userdata : σ)
    (packetsPerTransfer numTransfers : Nat) (T : Transport)
    (hp : 1 ≤ packetsPerTransfer)
    (hsub : ∀ i, T.submitOk i = true)
    (hcb : ∀ b len prog u, (cb .FTDI_CALLBACK_DATA b len prog u).1 = 0)
    (hev : ∀ ev ∈ T.events, ∃ slot buf, ev = .completion slot .completed buf ∧
      slot < numTransfers ∧ buf.length = packetsPerTransfer * FTDI_PACKET_SIZE) :
    (8 * FTDI_PACKET_SIZE = 4096 ∧ 8 * (FTDI_PACKET_SIZE - FTDI_HEADER_SIZE) = 4080 ∧
      100 * (8 * (FTDI_PACKET_SIZE - FTDI_HEADER_SIZE)) = 408000) ∧
    ((runSession cb userdata packetsPerTransfer numTransfers T).pool.transfer.length
        = numTransfers ∧
      ∀ t ∈ (runSession cb userdata packetsPerTransfer numTransfers T).pool.transfer,
        t.transfer.length = packetsPerTransfer * FTDI_PACKET_SIZE) ∧
    (runSession cb userdata packetsPerTransfer numTransfers T).phase = .Streaming ∧
    (runSession cb userdata packetsPerTransfer numTransfers T).trace.map
        (fun r => (r.cbtype, r.length))
      = List.replicate T.events.length (.FTDI_CALLBACK_DATA, packetsPerTransfer * 510) ∧
    (runSession cb userdata packetsPerTransfer numTransfers T).accumulated
      = T.events.length * packetsPerTransfer * 510 ∧
    (packetsPerTransfer = 8 → T.events.length = 100 →
      (runSession cb userdata packetsPerTransfer numTransfers T).accumulated = 408000) := by
  have hinit := StreamSession.Core_init userdata packetsPerTransfer numTransfers
  have hinv0 := StreamSession.inv_submitInitial cb T.submitOk numTransfers numTransfers _ hinit
  have hall := StreamSession.submitInitial_all cb T.submitOk hsub numTransfers
    (StreamSession.init userdata packetsPerTransfer numTransfers) hinit.1
    (by rw [hinit.2.1]; simp [StreamSession.init])
  rw [hinit.2.1] at hall
  obtain ⟨hph0, hlen0, htr0, htrace0, hacc0⟩ := hall
  have hcnt0 := hinv0.count (by rw [hph0]; decide)
  have hmem : ∀ slot, slot < numTransfers →
      slot ∈ (StreamSession.submitInitial cb T.submitOk numTransfers
        (StreamSession.init userdata packetsPerTransfer numTransfers)).inflight := by
    intro slot hslot
    obtain ⟨_, fl, _, hperm⟩ := hinv0.pool
    rw [hcnt0] at hperm
    have hl := hperm.length_eq
    simp only [List.length_append, List.length_range, hlen0] at hl
    have hfl : fl = [] := List.eq_nil_of_length_eq_zero (by omega)
    rw [hfl, List.append_nil] at hperm
    exact hperm.mem_iff.2 (List.mem_range.2 hslot)
  have hfold := StreamSession.foldl_data cb packetsPerTransfer hcb T.events _ hph0
    (fun ev he => by
      obtain ⟨sl, b, h3, h4, h5⟩ := hev ev he
      exact ⟨sl, b, h3, hmem sl h4, h5⟩)
  have hrun : runSession cb userdata packetsPerTransfer numTransfers T =
      T.events.foldl (StreamSession.step cb)
        (StreamSession.submitInitial cb T.submitOk numTransfers
          (StreamSession.init userdata packetsPerTransfer numTransfers)) := rfl
  rw [← hrun] at hfold
  obtain ⟨hph, hpool, hacc, htrace⟩ := hfold
  have h510 : FTDI_PACKET_SIZE - FTDI_HEADER_SIZE = 510 := rfl
  have hacc2 : (runSession cb userdata packetsPerTransfer numTransfers T).accumulated
      = T.events.length * packetsPerTransfer * 510 := by
    rw [hacc, hacc0, h510, Nat.mul_assoc]
    simp [StreamSession.init]
  refine ⟨⟨rfl, rfl, rfl⟩, ⟨?_, ?_⟩, hph, ?_, hacc2, ?_⟩
  · rw [hpool, hinv0.pool.1, hcnt0]
  · rw [hpool, htr0]
    exact allocate_capacity _ _
  · rw [htrace, htrace0, h510]
    simp [StreamSession.init]
  · intro h8 h100
    rw [hacc2, h8, h100]

/-! ## Concrete sessions -/

theorem samplePacket_length : samplePacket.length = FTDI_PACKET_SIZE := by
  simp only [samplePacket, List.length_cons, List.length_replicate]
  rfl

theorem sampleBuffer_length : sampleBuffer.length = 8 * FTDI_PACKET_SIZE := by
  simp only [sampleBuffer, List.length_flatten, List.map_replicate, List.sum_replicate,
    samplePacket_length, smul_eq_mul]

/-- C6 witness: eight packets per transfer, four transfers, one hundred full completions
of 4096 bytes each. -/
theorem C6_end_to_end_sizes_witness :
    1 ≤ 8 ∧ sampleBuffer.length = 8 * FTDI_PACKET_SIZE ∧ hundredTransport.events.length = 100 ∧
    (runSession cbZero () 8 4 hundredTransport).accumulated = 408000 := by
  have h := C6_end_to_end_sizes cbZero () 8 4 hundredTransport (by decide)
    (fun _ => rfl) (fun _ _ _ _ => rfl)
    (fun ev he => ⟨0, sampleBuffer, List.eq_of_mem_replicate he, by decide,
      sampleBuffer_length⟩)
  have hlen : hundredTransport.events.length = 100 := List.length_replicate _ _
  exact ⟨by decide, sampleBuffer_length, hlen, h.2.2.2.2.2 rfl hlen⟩

/-! ## Pool conservation -/

/-- C2: pool conservation.  A freshly allocated pool has every transfer free; at every
point of a streaming session (the state after any sequence of transport events) the pool
is conserved: every transfer is in exactly one of the sets in-flight and free, the free set
being the list reached from `free` through `next`, and the sizes of the two sets add up to
`transfercount`, which is `numTransfers` until the pool is released; and from any state
satisfying the pool invariant, acquiring a free transfer succeeds whenever one is free, and
acquiring a free transfer and releasing an in-flight transfer both give a state that
satisfies the invariant again, with the same `transfercount`. -/
theorem C2_pool_conservation {σ : Type} (cb : FTDIStreamCallback σ) (userdata : σ)
    (packetsPerTransfer numTransfers : Nat) (T : Transport) :
    (PoolInv (FTDITransferPool.allocate numTransfers
        (packetsPerTransfer * FTDI_PACKET_SIZE)) [] ∧
      (FTDITransferPool.allocate numTransfers
        (packetsPerTransfer * FTDI_PACKET_SIZE)).transfercount = numTransfers) ∧
    (PoolInv (runSession cb userdata packetsPerTransfer numTransfers T).pool
        (runSession cb userdata packetsPerTransfer numTransfers T).inflight ∧
      Conserved (runSession cb userdata packetsPerTransfer numTransfers T).pool
        (runSession cb userdata packetsPerTransfer numTransfers T).inflight ∧
      ((runSession cb userdata packetsPerTransfer numTransfers T).phase ≠ .Done →
        (runSession cb userdata packetsPerTransfer numTransfers T).pool.transfercount
          = numTransfers)) ∧
    (∀ (pool : FTDITransferPool) (inflight : List Nat), PoolInv pool inflight →
      Conserved pool inflight ∧
      (∀ x fl, pool.freeList = some (x :: fl) → ∃ pool2, pool.acquireFree = .ok (x, pool2)) ∧
      (∀ i pool2, pool.acquireFree = .ok (i, pool2) →
        i ∉ inflight ∧ PoolInv pool2 (i :: inflight) ∧
        pool2.transfercount = pool.transfercount) ∧
      (∀ i, i ∈ inflight →
        PoolInv (pool.release i) (inflight.erase i) ∧
        (pool.release i).transfercount = pool.transfercount)) := by
  have hrun := inv_runSession cb userdata packetsPerTransfer numTransfers T
  refine ⟨PoolInv_allocate _ _, ⟨hrun.pool, Conserved_of_PoolInv hrun.pool, hrun.count⟩, ?_⟩
  intro pool inflight h
  refine ⟨Conserved_of_PoolInv h, ?_, fun i pool2 ha => PoolInv_acquireFree h ha,
    fun i hi => PoolInv_release h hi⟩
  intro x fl hfl
  obtain ⟨pool2, h2, _⟩ := acquireFree_ok hfl
  exact ⟨pool2, h2⟩

/-! ## Framing round-trip -/

/-- C1: framing round-trip.  For every `k ≥ 1` and every raw buffer built from `k` packets
of `FTDI_PACKET_SIZE` bytes, each a `FTDI_HEADER_SIZE`-byte header followed by a 510-byte
payload, the decode step yields exactly `k * 510` bytes: the concatenation of the `k`
payloads in packet order, with every header byte discarded; and a streaming session that
receives the buffer as the completion of an in-flight transfer hands exactly these bytes,
with length `k * 510`, to the DATA callback. -/
theorem C1_framing_roundtrip (k : Nat) (packets : List (List Nat × List Nat))
    (hk : 1 ≤ k) (hlen : packets.length = k) (hframed : WellFramed packets) :
    (rawOfPackets packets).length = k * FTDI_PACKET_SIZE ∧
    decode (rawOfPackets packets) = .ok (payloadOfPackets packets) ∧
    (payloadOfPackets packets).length = k * 510 ∧
    (∀ (σ : Type) (cb : FTDIStreamCallback σ) (s : StreamSession σ) (slot : Nat),
      s.phase = .Streaming → slot ∈ s.inflight →
      ∃ ret rest,
        (StreamSession.step cb s (.completion slot .completed (rawOfPackets packets))).trace
          = s.trace ++ (⟨.FTDI_CALLBACK_DATA, some (payloadOfPackets packets), k * 510, ret,
              s.inflight.length⟩ :: rest)) := by
  subst hlen
  have hl := payloadOfPackets_length packets hframed
  have h510 : FTDI_PACKET_SIZE - FTDI_HEADER_SIZE = 510 := rfl
  rw [h510] at hl
  refine ⟨rawOfPackets_length packets hframed, decode_rawOfPackets packets hframed, hl, ?_⟩
  intro σ cb s slot hph hslot
  have := StreamSession.step_delivers cb s slot _ _
    (decode_rawOfPackets packets hframed) hph hslot
  rw [hl] at this
  exact this

/-- C1 witness: two packets with header `0x31 0x60`, payloads of `0xAA` and of `0x55`. -/
theorem C1_framing_roundtrip_witness :
    1 ≤ 2 ∧
    decode (rawOfPackets [([0x31, 0x60], List.replicate 510 0xAA),
                          ([0x31, 0x60], List.replicate 510 0x55)])
      = .ok (List.replicate 510 0xAA ++ List.replicate 510 0x55) ∧
    (List.replicate 510 0xAA ++ List.replicate 510 0x55).length = 2 * 510 := by
  have hframed : WellFramed [([0x31, 0x60], List.replicate 510 0xAA),
      ([0x31, 0x60], List.replicate 510 0x55)] := by
    intro p hp
    simp only [List.mem_cons, List.mem_singleton, List.not_mem_nil, or_false] at hp
    rcases hp with rfl | rfl
    · exact ⟨rfl, List.length_replicate _ _⟩
    · exact ⟨rfl, List.length_replicate _ _⟩
  have h := C1_framing_roundtrip 2
    [([0x31, 0x60], List.replicate 510 0xAA), ([0x31, 0x60], List.replicate 510 0x55)]
    (by decide) rfl hframed
  have hpay : payloadOfPackets [([0x31, 0x60], List.replicate 510 0xAA),
      ([0x31, 0x60], List.replicate 510 0x55)]
      = List.replicate 510 0xAA ++ List.replicate 510 0x55 := by
    simp only [payloadOfPackets, List.map_cons, List.map_nil, List.flatten_cons,
      List.flatten_nil, List.append_nil]
  rw [hpay] at h
  exact ⟨by decide, h.2.1, h.2.2.1⟩

/-- C2 witness: three transfers; slot 1 fails and is retired, leaving slots 0 and 2 in
flight and slot 1 free; releasing slot 0 keeps the pool conserved. -/
theorem C2_pool_conservation_witness :
    (runSession cbZero () 1 3
      (idleTransport.extend [.completion 1 .error []])).inflight = [0, 2] ∧
    (runSession cbZero () 1 3
      (idleTransport.extend [.completion 1 .error []])).pool.freeList = some [1] ∧
    Conserved (runSession cbZero () 1 3
      (idleTransport.extend [.completion 1 .error []])).pool [0, 2] ∧
    PoolInv ((runSession cbZero () 1 3
      (idleTransport.extend [.completion 1 .error []])).pool.release 0) [2] := by
  have h := C2_pool_conservation cbZero () 1 3
    (idleTransport.extend [.completion 1 .error []])
  have hin : (runSession cbZero () 1 3
      (idleTransport.extend [.completion 1 .error []])).inflight = [0, 2] := by decide
  have h1 := h.2.1.2.1
  have h2 := (h.2.2 _ _ h.2.1.1).2.2.2 0 (by rw [hin]; decide)
  rw [hin] at h1 h2
  exact ⟨hin, by decide, h1, h2.1⟩

/-! ## The progress tracker -/

theorem ProgressTracker.run_append (tr : ProgressTracker) (ops1 ops2 : List TrackerOp) :
    tr.run (ops1 ++ ops2) = (tr.run ops1).run ops2 := by
  simp [ProgressTracker.run, List.foldl_append]

end FastFTDI
